import Mathlib

/-!
Formal model of the ray tracer core (joshuabenuck/ray-tracer).

Shallow embedding conventions:
* `f64` scalars are modelled as exact fractions (`F64`: an integer numerator
  over a positive integer denominator, not necessarily reduced).  This type
  evaluates by kernel reduction, and `toRat` maps it to `ℚ` for algebraic
  reasoning.  `f64::sqrt` and `f64::powf` are modelled by `F64.sqrt`/`F64.powf`,
  which agree exactly with the floating-point functions on the inputs at which
  any theorem below evaluates them (squares of rationals, respectively
  non-negative integer exponents); outside that domain they return a junk
  value `0` (a comment marks each place this matters).
* A Rust `panic!`/`unwrap()` failure is modelled by `Option`: an operation
  that can panic returns `none` exactly when the original code panics.
* Rust `Vec` becomes `List` (push = append on the right).
-/

set_option maxRecDepth 8000

/-- Exact-fraction model of `f64`: numerator over positive denominator. -/
structure F64 where
  num : Int
  den : Int
  dpos : 0 < den

instance : OfNat F64 n := ⟨⟨n, 1, one_pos⟩⟩

/-- Builds the fraction `n / d` (for positive literal denominators). -/
def mkF (n : Int) (d : Int) (h : 0 < d := by norm_num) : F64 := ⟨n, d, h⟩

/-- The rational value of an `F64`. -/
def toRat (a : F64) : ℚ := (a.num : ℚ) / (a.den : ℚ)

namespace F64

def add (a b : F64) : F64 :=
  ⟨a.num * b.den + b.num * a.den, a.den * b.den, mul_pos a.dpos b.dpos⟩

def sub (a b : F64) : F64 :=
  ⟨a.num * b.den - b.num * a.den, a.den * b.den, mul_pos a.dpos b.dpos⟩

def mul (a b : F64) : F64 :=
  ⟨a.num * b.num, a.den * b.den, mul_pos a.dpos b.dpos⟩

def neg (a : F64) : F64 := ⟨-a.num, a.den, a.dpos⟩

/-- Division; division by (exact) zero returns the junk value `0`, matching
the `x / 0 = 0` convention of `toRat`'s codomain `ℚ` (in `f64` it would give
`inf`/NaN — no theorem below divides by zero except through this junk). -/
def div (a b : F64) : F64 :=
  if h : 0 < b.num then ⟨a.num * b.den, a.den * b.num, mul_pos a.dpos h⟩
  else if h2 : b.num < 0 then ⟨-(a.num * b.den), a.den * (-b.num), mul_pos a.dpos (by omega)⟩
  else ⟨0, 1, one_pos⟩

def abs (a : F64) : F64 := ⟨|a.num|, a.den, a.dpos⟩

/-- Value equality of fractions (`f64` `==`). -/
def beq (a b : F64) : Bool := a.num * b.den == b.num * a.den

/-- Value order (`f64` `<`). -/
def blt (a b : F64) : Bool := a.num * b.den < b.num * a.den

/-- Value order (`f64` `<=`). -/
def ble (a b : F64) : Bool := a.num * b.den ≤ b.num * a.den

/-- Binary exponentiation (fueled with a bare `Nat.rec` so that kernel
reduction stays shallow); with `n < 2 ^ fuel` it computes `a ^ n`. -/
def powAux (a : F64) (fuel : Nat) : Nat → F64 :=
  Nat.rec (motive := fun _ => Nat → F64) (fun _ => 1)
    (fun _ ih n =>
      if n = 0 then 1
      else
        let h := ih (n / 2)
        let s := mul h h
        if n % 2 = 1 then mul s a else s)
    fuel

def pow (a : F64) (n : Nat) : F64 := powAux a (n + 1) n

end F64

instance : Add F64 := ⟨F64.add⟩

instance : Sub F64 := ⟨F64.sub⟩

instance : Mul F64 := ⟨F64.mul⟩

instance : Div F64 := ⟨F64.div⟩

instance : Neg F64 := ⟨F64.neg⟩

instance : HPow F64 Nat F64 := ⟨F64.pow⟩

/-- Fueled integer square root, written with a bare `Nat.rec` so that kernel
reduction peels the fuel lazily; with `fuel ≥ n` it computes `⌊√n⌋`. -/
def natSqrtAux (fuel : Nat) : Nat → Nat :=
  Nat.rec (motive := fun _ => Nat → Nat) (fun n => n)
    (fun _ ih n =>
      if n < 2 then n
      else
        let s := 2 * ih (n / 4)
        if (s + 1) * (s + 1) ≤ n then s + 1 else s)
    fuel

/-- Integer square root. -/
def natSqrt (n : Nat) : Nat := natSqrtAux n n

/-- Fueled gcd, written with a bare `Nat.rec` so that kernel reduction peels
the fuel lazily; with `fuel ≥ b` it computes `Nat.gcd a b`. -/
def gcdAux (fuel : Nat) : Nat → Nat → Nat :=
  Nat.rec (motive := fun _ => Nat → Nat → Nat) (fun a _ => a)
    (fun _ ih a b => if b = 0 then a else ih b (a % b))
    fuel

/-- Greatest common divisor. -/
def natGcd (a b : Nat) : Nat := gcdAux (b + 1) a b

/-- Exact-arithmetic model of `f64::sqrt`: the true square root whenever the
argument is the square of a rational, junk `0` otherwise (negative arguments,
which give NaN in `f64`, also map to the junk value). -/
def F64.sqrt (a : F64) : F64 :=
  if a.num < 0 then 0
  else
    let g := natGcd a.num.natAbs a.den.natAbs
    let n := a.num.natAbs / g
    let d := a.den.natAbs / g
    let sn := natSqrt n
    let sd := natSqrt d
    if h : sn * sn = n ∧ sd * sd = d ∧ 0 < sd then
      ⟨sn, sd, by exact_mod_cast h.2.2⟩
    else 0

/-- Exact-arithmetic model of `f64::powf`: exact for non-negative integer
exponents (the only exponent the code uses is the material shininess,
`200.0`), junk `0` otherwise. -/
def F64.powf (x y : F64) : F64 :=
  if 0 ≤ y.num ∧ y.num % y.den = 0 then x ^ (y.num / y.den).toNat else 0

/-! Bridge lemmas: `toRat` maps the `F64` operations to the field operations
of `ℚ` and the boolean comparisons to the order of `ℚ`. -/

theorem toRat_ofNat (n : Nat) : toRat (OfNat.ofNat n : F64) = (n : ℚ) := by
  show ((n : Int) : ℚ) / ((1 : Int) : ℚ) = _
  norm_num

theorem toRat_zero : toRat (0 : F64) = 0 := toRat_ofNat 0

theorem toRat_one : toRat (1 : F64) = 1 := by
  rw [toRat_ofNat]; norm_num

theorem toRat_mkF (n d : Int) (h : 0 < d) : toRat (mkF n d h) = (n : ℚ) / (d : ℚ) := rfl

theorem den_rat_ne (a : F64) : ((a.den : ℚ)) ≠ 0 := by
  have := a.dpos
  exact_mod_cast this.ne.symm

theorem toRat_add (a b : F64) : toRat (a + b) = toRat a + toRat b := by
  have ha := den_rat_ne a
  have hb := den_rat_ne b
  show toRat (F64.add a b) = _
  unfold toRat F64.add
  push_cast
  field_simp
  try ring

theorem toRat_sub (a b : F64) : toRat (a - b) = toRat a - toRat b := by
  have ha := den_rat_ne a
  have hb := den_rat_ne b
  show toRat (F64.sub a b) = _
  unfold toRat F64.sub
  push_cast
  field_simp
  try ring

theorem toRat_mul (a b : F64) : toRat (a * b) = toRat a * toRat b := by
  have ha := den_rat_ne a
  have hb := den_rat_ne b
  show toRat (F64.mul a b) = _
  unfold toRat F64.mul
  push_cast
  field_simp
  try ring

theorem toRat_neg (a : F64) : toRat (-a) = -toRat a := by
  show toRat (F64.neg a) = _
  unfold toRat F64.neg
  push_cast
  ring

theorem toRat_div (a b : F64) : toRat (a / b) = toRat a / toRat b := by
  have ha := den_rat_ne a
  have hb := den_rat_ne b
  show toRat (F64.div a b) = _
  unfold toRat F64.div
  rcases lt_trichotomy (0 : Int) b.num with h | h | h
  · rw [dif_pos h]
    have hbn : ((b.num : ℚ)) ≠ 0 := by exact_mod_cast h.ne.symm
    push_cast
    field_simp
    try ring
  · rw [dif_neg (by omega), dif_neg (by omega)]
    simp [toRat, ← h]
  · rw [dif_neg (by omega), dif_pos h]
    have hbn : ((b.num : ℚ)) ≠ 0 := by exact_mod_cast h.ne
    push_cast
    field_simp
    try ring

theorem toRat_abs (a : F64) : toRat (F64.abs a) = |toRat a| := by
  have hd : (0 : ℚ) < (a.den : ℚ) := by exact_mod_cast a.dpos
  unfold toRat F64.abs
  rw [abs_div, abs_of_pos hd]
  push_cast
  ring

theorem powAux_succ (a : F64) (k n : Nat) :
    F64.powAux a (k + 1) n =
      if n = 0 then 1
      else
        let h := F64.powAux a k (n / 2)
        let s := F64.mul h h
        if n % 2 = 1 then F64.mul s a else s := rfl

theorem toRat_fmul (a b : F64) : toRat (F64.mul a b) = toRat a * toRat b := toRat_mul a b

theorem toRat_powAux (a : F64) (fuel : Nat) :
    ∀ n, n < 2 ^ fuel → toRat (F64.powAux a fuel n) = toRat a ^ n := by
  induction fuel with
  | zero =>
    intro n hn
    interval_cases n
    simpa [F64.powAux] using toRat_one
  | succ k ih =>
    intro n hn
    rw [powAux_succ]
    by_cases h0 : n = 0
    · simp [h0, toRat_one]
    · rw [if_neg h0]
      have hh : n / 2 < 2 ^ k := by
        rw [pow_succ] at hn; omega
      have step : toRat (F64.mul (F64.powAux a k (n / 2)) (F64.powAux a k (n / 2))) =
          toRat a ^ (2 * (n / 2)) := by
        rw [toRat_fmul, ih _ hh, two_mul, pow_add]
      by_cases h2 : n % 2 = 1
      · simp only [h2, if_pos]
        rw [toRat_fmul, step, ← pow_succ]
        congr 1
        omega
      · simp only [h2, if_neg, if_false]
        rw [step]
        congr 1
        omega

theorem toRat_pow (a : F64) (n : Nat) : toRat (a ^ n) = toRat a ^ n :=
  toRat_powAux a (n + 1) n ((Nat.lt_two_pow n).trans (Nat.pow_lt_pow_succ one_lt_two))

theorem beq_iff (a b : F64) : F64.beq a b = true ↔ toRat a = toRat b := by
  have ha := den_rat_ne a
  have hb := den_rat_ne b
  unfold F64.beq toRat
  rw [beq_iff_eq, div_eq_div_iff ha hb]
  constructor
  · intro h; exact_mod_cast h
  · intro h; exact_mod_cast h

theorem blt_iff (a b : F64) : F64.blt a b = true ↔ toRat a < toRat b := by
  have ha : (0 : ℚ) < (a.den : ℚ) := by exact_mod_cast a.dpos
  have hb : (0 : ℚ) < (b.den : ℚ) := by exact_mod_cast b.dpos
  unfold F64.blt toRat
  rw [decide_eq_true_eq, div_lt_div_iff₀ ha hb]
  constructor
  · intro h; exact_mod_cast h
  · intro h; exact_mod_cast h

theorem ble_iff (a b : F64) : F64.ble a b = true ↔ toRat a ≤ toRat b := by
  have ha : (0 : ℚ) < (a.den : ℚ) := by exact_mod_cast a.dpos
  have hb : (0 : ℚ) < (b.den : ℚ) := by exact_mod_cast b.dpos
  unfold F64.ble toRat
  rw [decide_eq_true_eq, div_le_div_iff₀ ha hb]
  constructor
  · intro h; exact_mod_cast h
  · intro h; exact_mod_cast h

/-- `EPSILON` from `lib.rs` / `tuple.rs` / `matrix.rs`. -/
def EPSILON : F64 := mkF 1 100000

/-- `equal` from `lib.rs`: epsilon comparison of scalars. -/
def equalF (a b : F64) : Bool := F64.blt (F64.abs (a - b)) EPSILON

/-- `Tuple` from `tuple.rs`: a 4-component homogeneous tuple. -/
structure Tuple where
  x : F64
  y : F64
  z : F64
  w : F64

/-- `Tuple::point`. -/
def pt (x y z : F64) : Tuple := ⟨x, y, z, 1⟩

/-- `Tuple::vector`. -/
def vec (x y z : F64) : Tuple := ⟨x, y, z, 0⟩

instance : Add Tuple := ⟨fun a b => ⟨a.x + b.x, a.y + b.y, a.z + b.z, a.w + b.w⟩⟩

instance : Sub Tuple := ⟨fun a b => ⟨a.x - b.x, a.y - b.y, a.z - b.z, a.w - b.w⟩⟩

instance : Neg Tuple := ⟨fun a => ⟨-a.x, -a.y, -a.z, -a.w⟩⟩

/-- `impl Mul<f64> for Tuple`: scalar multiplication. -/
instance : HMul Tuple F64 Tuple := ⟨fun a s => ⟨a.x * s, a.y * s, a.z * s, a.w * s⟩⟩

/-- `Tuple::dot`. -/
def Tuple.dot (a b : Tuple) : F64 := a.x * b.x + a.y * b.y + a.z * b.z + a.w * b.w

/-- `Tuple::magnitude`. -/
def Tuple.magnitude (a : Tuple) : F64 :=
  F64.sqrt (a.x * a.x + a.y * a.y + a.z * a.z + a.w * a.w)

/-- `Tuple::normalize`. -/
def Tuple.normalize (a : Tuple) : Tuple :=
  let m := a.magnitude
  ⟨a.x / m, a.y / m, a.z / m, a.w / m⟩

/-- `Tuple::reflect`. -/
def Tuple.reflect (a normal : Tuple) : Tuple := a - normal * ((2 : F64) * a.dot normal)

/-- `impl PartialEq for Tuple` from `tuple.rs`: componentwise epsilon equality. -/
def tupleApproxEq (a b : Tuple) : Bool :=
  equalF a.x b.x && equalF a.y b.y && equalF a.z b.z && equalF a.w b.w

/-- `Color` from `tuple.rs`. -/
structure Color where
  red : F64
  green : F64
  blue : F64

instance : Add Color := ⟨fun a b => ⟨a.red + b.red, a.green + b.green, a.blue + b.blue⟩⟩

/-- `impl Mul<f64> for Color`. -/
instance : HMul Color F64 Color := ⟨fun a s => ⟨a.red * s, a.green * s, a.blue * s⟩⟩

/-- `impl Mul for Color`: Hadamard product. -/
def Color.mulC (a b : Color) : Color := ⟨a.red * b.red, a.green * b.green, a.blue * b.blue⟩

/-- `impl PartialEq for Color`: componentwise epsilon equality. -/
def colorApproxEq (a b : Color) : Bool :=
  equalF a.red b.red && equalF a.green b.green && equalF a.blue b.blue

/-- Exact value equality of colors (used to state theorems). -/
def colorValEq (a b : Color) : Bool :=
  F64.beq a.red b.red && F64.beq a.green b.green && F64.beq a.blue b.blue

/-- `black()` from `tuple.rs`. -/
def black : Color := ⟨0, 0, 0⟩

/-! 4×4 matrices (`matrix.rs`).  A matrix is a total function from row/column
indices; only indices `0..3` are meaningful, entries beyond are junk `0`
introduced by the `mat4` constructor. -/

/-- `Matrix4x4` representation. -/
def Mat4 := Nat → Nat → F64

/-- `Matrix3x3` representation. -/
def Mat3 := Nat → Nat → F64

/-- `Matrix2x2` representation. -/
def Mat2 := Nat → Nat → F64

/-- Builds a `Matrix4x4` from its 16 entries in row-major order. -/
def mat4 (a00 a01 a02 a03 a10 a11 a12 a13 a20 a21 a22 a23 a30 a31 a32 a33 : F64) : Mat4 :=
  fun i j =>
    match i, j with
    | 0, 0 => a00 | 0, 1 => a01 | 0, 2 => a02 | 0, 3 => a03
    | 1, 0 => a10 | 1, 1 => a11 | 1, 2 => a12 | 1, 3 => a13
    | 2, 0 => a20 | 2, 1 => a21 | 2, 2 => a22 | 2, 3 => a23
    | 3, 0 => a30 | 3, 1 => a31 | 3, 2 => a32 | 3, 3 => a33
    | _, _ => 0

/-- `Matrix4x4::identity`. -/
def identity4 : Mat4 := mat4 1 0 0 0 0 1 0 0 0 0 1 0 0 0 0 1

/-- `Matrix4x4::translation`. -/
def translation (x y z : F64) : Mat4 := mat4 1 0 0 x 0 1 0 y 0 0 1 z 0 0 0 1

/-- `Matrix4x4::scaling`. -/
def scaling (x y z : F64) : Mat4 := mat4 x 0 0 0 0 y 0 0 0 0 z 0 0 0 0 1

/-- `Matrix4x4::transpose`. -/
def transpose4 (m : Mat4) : Mat4 := fun i j => m j i

/-- The index arithmetic performed by the `submatrix` copy loops: source row
`r` maps to destination row `sr` by skipping the deleted index. -/
def skipIdx (k i : Nat) : Nat := if i < k then i else i + 1

/-- `Matrix4x4::submatrix`. -/
def submatrix4 (m : Mat4) (row col : Nat) : Mat3 :=
  fun i j => m (skipIdx row i) (skipIdx col j)

/-- `Matrix3x3::submatrix`. -/
def submatrix3 (m : Mat3) (row col : Nat) : Mat2 :=
  fun i j => m (skipIdx row i) (skipIdx col j)

/-- `Matrix2x2::determinant`. -/
def det2 (m : Mat2) : F64 := m 0 0 * m 1 1 - m 0 1 * m 1 0

/-- `Matrix3x3::minor`. -/
def minor3 (m : Mat3) (row col : Nat) : F64 := det2 (submatrix3 m row col)

/-- `Matrix3x3::cofactor`. -/
def cofactor3 (m : Mat3) (row col : Nat) : F64 :=
  (if (row + col) % 2 = 0 then (1 : F64) else -1) * minor3 m row col

/-- `Matrix3x3::determinant`: cofactor expansion along the first row. -/
def det3 (m : Mat3) : F64 :=
  m 0 0 * cofactor3 m 0 0 + m 0 1 * cofactor3 m 0 1 + m 0 2 * cofactor3 m 0 2

/-- `Matrix4x4::minor`. -/
def minor4 (m : Mat4) (row col : Nat) : F64 := det3 (submatrix4 m row col)

/-- `Matrix4x4::cofactor`. -/
def cofactor4 (m : Mat4) (row col : Nat) : F64 :=
  (if (row + col) % 2 = 0 then (1 : F64) else -1) * minor4 m row col

/-- `Matrix4x4::determinant`: cofactor expansion along the first row. -/
def det4 (m : Mat4) : F64 :=
  m 0 0 * cofactor4 m 0 0 + m 0 1 * cofactor4 m 0 1 +
    m 0 2 * cofactor4 m 0 2 + m 0 3 * cofactor4 m 0 3

/-- `Matrix4x4::inverse`: `None` when the determinant is zero, otherwise the
transposed cofactor matrix divided by the determinant
(`inverse[col][row] = cofactors[row][col] / determinant`). -/
def inverse4 (m : Mat4) : Option Mat4 :=
  if F64.beq (det4 m) 0 then none
  else some (fun i j => cofactor4 m j i / det4 m)

/-- `impl Mul for Matrix4x4`. -/
def m4mul (a b : Mat4) : Mat4 :=
  fun r c => a r 0 * b 0 c + a r 1 * b 1 c + a r 2 * b 2 c + a r 3 * b 3 c

/-- `impl Mul<Tuple> for Matrix4x4`. -/
def m4tuple (a : Mat4) (t : Tuple) : Tuple :=
  ⟨a 0 0 * t.x + a 0 1 * t.y + a 0 2 * t.z + a 0 3 * t.w,
   a 1 0 * t.x + a 1 1 * t.y + a 1 2 * t.z + a 1 3 * t.w,
   a 2 0 * t.x + a 2 1 * t.y + a 2 2 * t.z + a 2 3 * t.w,
   a 3 0 * t.x + a 3 1 * t.y + a 3 2 * t.z + a 3 3 * t.w⟩

/-- `impl PartialEq for Matrix4x4`: entrywise epsilon equality over the 16
meaningful entries. -/
def matApproxEq (a b : Mat4) : Bool :=
  ([0, 1, 2, 3] : List Nat).all fun r =>
    ([0, 1, 2, 3] : List Nat).all fun c => equalF (a r c) (b r c)

/-- `Ray` from `ray.rs`. -/
structure Ray where
  origin : Tuple
  direction : Tuple

/-- `Ray::position`. -/
def Ray.position (r : Ray) (t : F64) : Tuple := r.origin + r.direction * t

/-- `Ray::transform`. -/
def Ray.transformM (r : Ray) (m : Mat4) : Ray := ⟨m4tuple m r.origin, m4tuple m r.direction⟩

/-- `PointLight` from `ray.rs`. -/
structure PointLight where
  position : Tuple
  intensity : Color

/-- `PatternDesign` from `pattern.rs`. -/
inductive PatternDesign : Type where
  | stripe (a b : Color)
  | gradient (a b : Color)
  | ring (a b : Color)
  | checkers (a b : Color)
  | test

/-- `Pattern` from `pattern.rs`. -/
structure Pattern where
  design : PatternDesign
  transform : Mat4

/-- `f64::floor` followed by the `as isize` cast used by `pattern.rs`. -/
def F64.floorI (a : F64) : Int := Int.fdiv a.num a.den

/-- `Pattern::pattern_at` from `pattern.rs`.  (`x as isize % 2 == 0` is an
evenness test, identical for truncated and euclidean remainders.) -/
def patternAt (p : Pattern) (point : Tuple) : Color :=
  match p.design with
  | .stripe a b => if point.x.floorI % 2 == 0 then a else b
  | .gradient a b =>
      let distance : Color := ⟨b.red - a.red, b.green - a.green, b.blue - a.blue⟩
      let fraction := point.x - mkF point.x.floorI 1
      a + distance * fraction
  | .ring a b =>
      let x2 := point.x * point.x
      let z2 := point.z * point.z
      if (F64.sqrt (x2 + z2)).floorI % 2 == 0 then a else b
  | .checkers a b =>
      if (mkF point.x.floorI 1 + mkF point.y.floorI 1 + mkF point.z.floorI 1).floorI % 2 == 0
      then a else b
  | .test => ⟨point.x, point.y, point.z⟩

/-- `Material` from `material.rs`. -/
structure Material where
  color : Color
  pattern : Option Pattern
  ambient : F64
  diffuse : F64
  specular : F64
  shininess : F64
  reflective : F64
  transparency : F64
  refractive_index : F64

/-- `Material::new`: the default material. -/
def Material.new : Material :=
  { color := ⟨1, 1, 1⟩
    pattern := none
    ambient := mkF 1 10
    diffuse := mkF 9 10
    specular := mkF 9 10
    shininess := 200
    reflective := 0
    transparency := 0
    refractive_index := 1 }

/-- Derived `PartialEq` for `PatternDesign` (colors compare with the epsilon
`PartialEq` of `Color`). -/
def designEq (a b : PatternDesign) : Bool :=
  match a, b with
  | .stripe a1 a2, .stripe b1 b2 => colorApproxEq a1 b1 && colorApproxEq a2 b2
  | .gradient a1 a2, .gradient b1 b2 => colorApproxEq a1 b1 && colorApproxEq a2 b2
  | .ring a1 a2, .ring b1 b2 => colorApproxEq a1 b1 && colorApproxEq a2 b2
  | .checkers a1 a2, .checkers b1 b2 => colorApproxEq a1 b1 && colorApproxEq a2 b2
  | .test, .test => true
  | _, _ => false

/-- Derived `PartialEq` for `Pattern`. -/
def patternEq (a b : Pattern) : Bool :=
  designEq a.design b.design && matApproxEq a.transform b.transform

/-- Derived `PartialEq` for `Material`: scalar fields compare with exact `f64`
equality, the color with `Color`'s epsilon equality. -/
def materialEq (a b : Material) : Bool :=
  colorApproxEq a.color b.color &&
  (match a.pattern, b.pattern with
   | none, none => true
   | some p, some q => patternEq p q
   | _, _ => false) &&
  F64.beq a.ambient b.ambient && F64.beq a.diffuse b.diffuse &&
  F64.beq a.specular b.specular && F64.beq a.shininess b.shininess &&
  F64.beq a.reflective b.reflective && F64.beq a.transparency b.transparency &&
  F64.beq a.refractive_index b.refractive_index

/-- `Op` from `shapes/csg.rs`. -/
inductive CsgOp : Type where
  | union
  | intersection
  | difference
deriving DecidableEq

/-- `Hit` from `shapes/csg.rs`: which CSG subtree an intersection belongs to. -/
inductive HitSide : Type where
  | left
  | right
deriving DecidableEq

/-- The shape tree (`shapes/*.rs`): each variant carries its `Props`
(`transform` and `material`).  The cylinder/cone/triangle variants are not
needed by any claim and are omitted; the cube is modelled separately with
IEEE extended values (see the `FV` section below) because its slab test
depends on infinities. -/
inductive Shape : Type where
  | sphere (transform : Mat4) (material : Material)
  | plane (transform : Mat4) (material : Material)
  | group (transform : Mat4) (material : Material) (children : List Shape)
  | csg (transform : Mat4) (material : Material) (op : CsgOp) (left right : Shape)

/-- The shape's own transform (`Props`). -/
def Shape.transform : Shape → Mat4
  | .sphere t _ => t
  | .plane t _ => t
  | .group t _ _ => t
  | .csg t _ _ _ _ => t

/-- The shape's material (`Props`). -/
def Shape.material : Shape → Material
  | .sphere _ m => m
  | .plane _ m => m
  | .group _ m _ => m
  | .csg _ m _ _ _ => m

/-- Modelled from the spec: the blanket `PartialEq for &dyn Shape` impl is not
under `src/` (only the per-shape `shape_eq` methods are).  Those methods alone
compare only the variant (`Sphere::shape_eq` accepts any sphere), and the
`intersections_n1_n2` unit test requires spheres that differ in transform and
material to compare unequal, so the blanket impl must also compare the `Props`;
the spec speaks of comparison "by object identity".  We model equality as the
per-shape `shape_eq` (variant for leaves, recursive left/right equality for
`Csg`, child count for `Group`) conjoined with `Props` equality (epsilon
matrix equality, derived `Material` equality). -/
def shapeEq : Shape → Shape → Bool
  | .sphere t1 m1, .sphere t2 m2 => matApproxEq t1 t2 && materialEq m1 m2
  | .plane t1 m1, .plane t2 m2 => matApproxEq t1 t2 && materialEq m1 m2
  | .group t1 m1 c1, .group t2 m2 c2 =>
      c1.length == c2.length && matApproxEq t1 t2 && materialEq m1 m2
  | .csg t1 m1 _ l1 r1, .csg t2 m2 _ l2 r2 =>
      shapeEq l1 l2 && shapeEq r1 r2 && matApproxEq t1 t2 && materialEq m1 m2
  | _, _ => false

mutual

/-- `includes`: `Group` and `Csg` recurse into their subtree
(`shapes/group.rs`, `shapes/csg.rs`); leaf shapes compare with `==`
(`shapes/cylinder.rs`/`cone.rs` and the trait default, modelled by
`shapeEq`). -/
def Shape.includes : Shape → Shape → Bool
  | .group _ _ children, other => includesList children other
  | .csg _ _ _ l r, other => l.includes other || r.includes other
  | s, other => shapeEq s other

/-- The `for child in children` loop of `Group::includes`. -/
def includesList : List Shape → Shape → Bool
  | [], _ => false
  | c :: rest, other => c.includes other || includesList rest other

end

/-- `Intersection` from `intersection.rs`: ray parameter, object, optional
`(u,v)` pair. -/
structure Intersection where
  t : F64
  object : Shape
  uv : Option (F64 × F64)

/-- `Intersection::new`. -/
def Intersection.new (t : F64) (object : Shape) : Intersection := ⟨t, object, none⟩

/-- `impl PartialEq for Intersection`: compares `t` (exact `f64` equality) and
the object; the `uv` field is not compared. -/
def interEq (a b : Intersection) : Bool := F64.beq a.t b.t && shapeEq a.object b.object

/-- Stable insertion into an ascending-by-`t` list: a new element goes after
existing elements with equal `t`. -/
def insertByT (x : Intersection) : List Intersection → List Intersection
  | [] => [x]
  | y :: ys => if F64.blt x.t y.t then x :: y :: ys else y :: insertByT x ys

/-- Model of `xs.sort_by(|a, b| a.t.partial_cmp(&b.t).unwrap())`: a stable
ascending sort by `t` (total in this exact model — the `unwrap` can only
panic on NaN, which `F64` does not contain; NaN behaviour is studied in the
`FV` section below). -/
def sortByT (xs : List Intersection) : List Intersection :=
  xs.foldl (fun acc i => insertByT i acc) []

/-- `Csg::intersection_allowed` from `shapes/csg.rs`. -/
def intersectionAllowed (op : CsgOp) (hit : HitSide) (inl inr : Bool) : Bool :=
  match op with
  | .union => (hit == HitSide.left && !inr) || (hit == HitSide.right && !inl)
  | .intersection => (hit == HitSide.left && inr) || (hit == HitSide.right && inl)
  | .difference => (hit == HitSide.left && !inr) || (hit == HitSide.right && inl)

/-- The body of the `for i in xs` loop of `Csg::filter_intersections`,
expressed as a `foldl` over the state `(inl, inr, result)`. -/
def filterStep (op : CsgOp) (left : Shape) (st : Bool × Bool × List Intersection)
    (i : Intersection) : Bool × Bool × List Intersection :=
  let inl := st.1
  let inr := st.2.1
  let result := st.2.2
  let hit := if left.includes i.object then HitSide.left else HitSide.right
  let result := if intersectionAllowed op hit inl inr then result ++ [i] else result
  if hit == HitSide.left then (!inl, inr, result) else (inl, !inr, result)

/-- `Csg::filter_intersections` from `shapes/csg.rs`: begin outside both
children (`inl = inr = false`), scan the list once, and return the kept
intersections. -/
def filterIntersections (op : CsgOp) (left : Shape) (xs : List Intersection) :
    List Intersection :=
  (xs.foldl (filterStep op left) (false, false, [])).2.2

mutual

/-- `local_intersect` per shape (`shapes/sphere.rs`, `shapes/plane.rs`,
`shapes/group.rs`, `shapes/csg.rs`).  The trait-level `intersect` wrapper —
transform the ray by the inverse of the child's own transform (`unwrap`
panics when not invertible), then recurse — is inlined at the two recursive
call sites (`Csg` children, group children via `intersectList`) so that the
recursion is structural; `Shape.intersect` below is the same wrapper at the
top level. -/
def Shape.localIntersect (s : Shape) (r : Ray) : Option (List Intersection) :=
  match s with
  | .sphere _ _ =>
      let sphere_to_ray := r.origin - pt 0 0 0
      let a := r.direction.dot r.direction
      let b := 2 * r.direction.dot sphere_to_ray
      let c := sphere_to_ray.dot sphere_to_ray - 1
      let discriminant := b * b - 4 * a * c
      if F64.blt discriminant 0 then some []
      else
        let t1 := (-b - F64.sqrt discriminant) / (2 * a)
        let t2 := (-b + F64.sqrt discriminant) / (2 * a)
        some [Intersection.new t1 s, Intersection.new t2 s]
  | .plane _ _ =>
      if F64.blt (F64.abs r.direction.y) EPSILON then some []
      else some [Intersection.new (-r.origin.y / r.direction.y) s]
  | .group _ _ children =>
      match intersectList children r with
      | none => none
      | some xs => some (sortByT xs)
  | .csg _ _ op left right =>
      match
        (match inverse4 left.transform with
         | none => none
         | some inv => left.localIntersect (r.transformM inv)) with
      | none => none
      | some leftXs =>
        match
          (match inverse4 right.transform with
           | none => none
           | some inv => right.localIntersect (r.transformM inv)) with
        | none => none
        | some rightXs => some (filterIntersections op left (sortByT (leftXs ++ rightXs)))

/-- The `flat_map(|c| c.intersect(&ray))` over a group's children (with the
`intersect` wrapper inlined). -/
def intersectList (shapes : List Shape) (r : Ray) : Option (List Intersection) :=
  match shapes with
  | [] => some []
  | c :: rest =>
      match
        (match inverse4 c.transform with
         | none => none
         | some inv => c.localIntersect (r.transformM inv)) with
      | none => none
      | some xs =>
        match intersectList rest r with
        | none => none
        | some ys => some (xs ++ ys)

end

/-- The trait method `intersect` (its default body appears in `shape.rs`):
transform the ray by the inverse of the shape's transform — panicking via
`unwrap` when the transform is not invertible — then run the local
algorithm. -/
def Shape.intersect (s : Shape) (r : Ray) : Option (List Intersection) :=
  match inverse4 s.transform with
  | none => none
  | some inv => s.localIntersect (r.transformM inv)

/-- `local_normal_at` per shape: a sphere's normal is the local point minus
the origin, a plane's is constantly `(0,1,0)`; `Group` and `Csg` hit
`unreachable!()` (= panic, modelled by `none`). -/
def Shape.localNormalAt (s : Shape) (p : Tuple) : Option Tuple :=
  match s with
  | .sphere _ _ => some (p - pt 0 0 0)
  | .plane _ _ => some (vec 0 1 0)
  | .group _ _ _ => none
  | .csg _ _ _ _ _ => none

/-- `Shape::normal_at` from `shape.rs` (lines 360-370): map the point to
object space with the inverse transform (`unwrap` panics when not
invertible), take the local normal, map it back with the transposed inverse,
zero the `w` component, and normalize. -/
def Shape.normalAt (s : Shape) (world_point : Tuple) : Option Tuple :=
  match inverse4 s.transform with
  | none => none
  | some inv =>
    let object_point := m4tuple inv world_point
    match s.localNormalAt object_point with
    | none => none
    | some object_normal =>
      let world_normal := m4tuple (transpose4 inv) object_normal
      let world_normal : Tuple := { world_normal with w := 0 }
      some world_normal.normalize

/-- `Intersections::hit` from `intersection.rs`/`ray.rs`: the first
intersection in input order with `t > 0.0`; `None` if there is none. -/
def hitI : List Intersection → Option Intersection
  | [] => none
  | i :: rest => if F64.blt 0 i.t then some i else hitI rest

/-- `Comps` from `intersection.rs`. -/
structure Comps where
  t : F64
  object : Shape
  point : Tuple
  eyev : Tuple
  normalv : Tuple
  reflectv : Tuple
  inside : Bool
  over_point : Tuple
  under_point : Tuple
  n1 : F64
  n2 : F64

/-- The shared tail of `schlick`: `r0 + (1 - r0) * (1 - cos)^5`. -/
def schlickTail (n1 n2 cos : F64) : F64 :=
  let r0 := ((n1 - n2) / (n1 + n2)) ^ (2 : Nat)
  r0 + (1 - r0) * (1 - cos) ^ (5 : Nat)

/-- `schlick` from `intersection.rs`. -/
def schlick (comps : Comps) : F64 :=
  let cos := comps.eyev.dot comps.normalv
  if F64.blt comps.n2 comps.n1 then
    let n := comps.n1 / comps.n2
    let sin2_t := n ^ (2 : Nat) * (1 - cos ^ (2 : Nat))
    if F64.blt 1 sin2_t then 1
    else schlickTail comps.n1 comps.n2 (F64.sqrt (1 - sin2_t))
  else schlickTail comps.n1 comps.n2 cos

/-- One step of the `containers` update in `prepare_computations`: pop the
object if it is present (first matching position), push it otherwise. -/
def containersUpdate (containers : List Shape) (obj : Shape) : List Shape :=
  match containers.findIdx? (fun c => shapeEq c obj) with
  | some p => containers.eraseIdx p
  | none => containers ++ [obj]

/-- The refractive index of the innermost container (`containers.last()`),
`1.0` for an empty stack. -/
def containersIndex (containers : List Shape) : F64 :=
  match containers.getLast? with
  | none => 1
  | some c => c.material.refractive_index

/-- The `for i in xs` loop of `prepare_computations` computing `n1`/`n2`:
when the scanned intersection equals the hit, `n1` is read from the stack
before the push/pop, `n2` after it, and the loop breaks; if the hit is never
found both stay at their initial `1.0`. -/
def n1n2Loop (self : Intersection) : List Intersection → List Shape → F64 × F64
  | [], _ => (1, 1)
  | i :: rest, containers =>
      if interEq i self then
        let n1 := containersIndex containers
        let containers := containersUpdate containers i.object
        (n1, containersIndex containers)
      else
        n1n2Loop self rest (containersUpdate containers i.object)

/-- `Intersection::prepare_computations` from `intersection.rs` (lines
70-128).  The call `object.normal_at(point, &self)` goes through the trait
`normal_at` (the body in `shape.rs`), which `unwrap`s the inverse transform,
so the whole computation is `Option`-valued. -/
def prepareComputations (self : Intersection) (r : Ray) (xs : List Intersection) :
    Option Comps :=
  let t := self.t
  let object := self.object
  let point := r.position t
  let eyev := -r.direction
  match object.normalAt point with
  | none => none
  | some normalv0 =>
    let inside := F64.blt (normalv0.dot eyev) 0
    let normalv := if inside then -normalv0 else normalv0
    let reflectv := r.direction.reflect normalv
    let over_point := point + normalv * EPSILON
    let under_point := point - normalv * EPSILON
    let nn := n1n2Loop self xs []
    some { t, object, point, eyev, normalv, reflectv, inside, over_point, under_point,
           n1 := nn.1, n2 := nn.2 }

/-- `Pattern::pattern_at_object` from `pattern.rs`: both `unwrap`ped inverses
can panic (`none`). -/
def patternAtObject (p : Pattern) (object : Shape) (world_point : Tuple) : Option Color :=
  match inverse4 object.transform with
  | none => none
  | some oinv =>
    match inverse4 p.transform with
    | none => none
    | some pinv => some (patternAt p (m4tuple pinv (m4tuple oinv world_point)))

/-- `Material::lighting` from `material.rs` (lines 80-132).  `scene.rs` calls
this through a free `lighting` wrapper whose definition is not under `src/`;
the wrapper adds nothing beyond forwarding the material. -/
def lighting (m : Material) (object : Shape) (light : PointLight)
    (point eyev normalv : Tuple) (in_shadow : Bool) : Option Color :=
  let colorO :=
    match m.pattern with
    | some pattern => patternAtObject pattern object point
    | none => some m.color
  match colorO with
  | none => none
  | some color =>
    let effective_color := color.mulC light.intensity
    let lightv := (light.position - point).normalize
    let ambient := effective_color * m.ambient
    if in_shadow then some ambient
    else
      let light_dot_normal := lightv.dot normalv
      let ds :=
        if F64.blt light_dot_normal 0 then (black, black)
        else
          let diffuse := effective_color * m.diffuse * light_dot_normal
          let reflectv := -(lightv.reflect normalv)
          let reflect_dot_eye := reflectv.dot eyev
          let specular :=
            if F64.ble reflect_dot_eye 0 then black
            else
              let factor := F64.powf reflect_dot_eye m.shininess
              light.intensity * m.specular * factor
          (diffuse, specular)
      some (ambient + ds.1 + ds.2)

/-- `World` from `scene.rs`. -/
structure World where
  objects : List Shape
  lights : List PointLight

/-- `World::intersect` from `scene.rs` (lines 19-26): collect every object's
intersections in object order, then sort ascending by `t`. -/
def worldIntersect (w : World) (r : Ray) : Option (List Intersection) :=
  match intersectList w.objects r with
  | none => none
  | some xs => some (sortByT xs)

/-- `World::is_shadowed` from `scene.rs` (lines 69-84): consults only
`lights[0]` — indexing panics (`none`) when the world has no lights. -/
def isShadowed (w : World) (point : Tuple) : Option Bool :=
  match w.lights with
  | [] => none
  | l0 :: _ =>
    let vv := l0.position - point
    let distance := vv.magnitude
    let direction := vv.normalize
    match worldIntersect w ⟨point, direction⟩ with
    | none => none
    | some intersections =>
      match hitI intersections with
      | some h => some (F64.blt h.t distance)
      | none => some false

/-- `World::reflected_color`, with the recursive `color_at` call abstracted
as `recur` (instantiated with `color_at` at depth `remaining - 1`). -/
def reflectedColorAux (recur : Ray → Option Color) (comps : Comps) (remaining : Nat) :
    Option Color :=
  if remaining = 0 then some black
  else if F64.beq comps.object.material.reflective 0 then some black
  else
    match recur ⟨comps.over_point, comps.reflectv⟩ with
    | none => none
    | some color => some (color * comps.object.material.reflective)

/-- `World::refracted_color`, with the recursive `color_at` call abstracted
as `recur`. -/
def refractedColorAux (recur : Ray → Option Color) (comps : Comps) (remaining : Nat) :
    Option Color :=
  if remaining = 0 then some black
  else if F64.beq comps.object.material.transparency 0 then some black
  else
    let n_ratio := comps.n1 / comps.n2
    let cos_i := comps.eyev.dot comps.normalv
    let sin2_t := n_ratio * n_ratio * (1 - cos_i * cos_i)
    if F64.blt 1 sin2_t then some black
    else
      let cos_t := F64.sqrt (1 - sin2_t)
      let direction := comps.normalv * (n_ratio * cos_i - cos_t) - comps.eyev * n_ratio
      match recur ⟨comps.under_point, direction⟩ with
      | none => none
      | some c => some (c * comps.object.material.transparency)

/-- The closure mapped over `self.lights` in `World::shade_hit`: surface
lighting (shadow-tested at `over_point`), plus the reflected and refracted
contributions, Schlick-blended when the material is both reflective and
transparent. -/
def perLightAux (w : World) (recur : Ray → Option Color) (comps : Comps)
    (remaining : Nat) (l : PointLight) : Option Color :=
  let object := comps.object
  match isShadowed w comps.over_point with
  | none => none
  | some shadowed =>
    match lighting object.material object l comps.over_point comps.eyev comps.normalv
        shadowed with
    | none => none
    | some surface =>
      match reflectedColorAux recur comps remaining with
      | none => none
      | some reflected =>
        match refractedColorAux recur comps remaining with
        | none => none
        | some refracted =>
          let material := comps.object.material
          if F64.blt 0 material.reflective && F64.blt 0 material.transparency then
            let reflectance := schlick comps
            some (surface + reflected * reflectance + refracted * (1 - reflectance))
          else some (surface + reflected + refracted)

/-- Evaluation of the per-light closure over the light list (the lazy `map`
iterator of `shade_hit` is fully consumed by `next()` and the summing loop;
a panic in any closure call propagates). -/
def perLightsList (w : World) (recur : Ray → Option Color) (comps : Comps)
    (remaining : Nat) : List PointLight → Option (List Color)
  | [] => some []
  | l :: rest =>
      match perLightAux w recur comps remaining l with
      | none => none
      | some c =>
        match perLightsList w recur comps remaining rest with
        | none => none
        | some cs => some (c :: cs)

/-- `World::shade_hit` from `scene.rs` (lines 28-55), with the recursive
`color_at` abstracted as `recur`: map the per-light closure over the lights,
take the first color with `cs.next().unwrap()` (panic when there are no
lights), and add the rest. -/
def shadeHitAux (w : World) (recur : Ray → Option Color) (comps : Comps)
    (remaining : Nat) : Option Color :=
  match perLightsList w recur comps remaining w.lights with
  | none => none
  | some [] => none
  | some (c :: rest) => some (rest.foldl (fun a b => a + b) c)

/-- `World::color_at` from `scene.rs` (lines 57-67), with the recursive call
abstracted as `recur`: intersect, take the hit, shade it, or return black
when there is no hit. -/
def colorAtAux (w : World) (recur : Ray → Option Color) (remaining : Nat) (r : Ray) :
    Option Color :=
  match worldIntersect w r with
  | none => none
  | some intersections =>
    match hitI intersections with
    | some i =>
      match prepareComputations i r intersections with
      | none => none
      | some comps => shadeHitAux w recur comps remaining
    | none => some black

/-- `World::color_at`: the mutual recursion of `color_at`, `shade_hit`,
`reflected_color` and `refracted_color`, realised by structural recursion on
the depth counter.  At `remaining = 0` both secondary-ray functions return
black before consulting the callback, so the dead callback is `black`. -/
def colorAt (w : World) : Nat → Ray → Option Color
  | 0, r => colorAtAux w (fun _ => some black) 0 r
  | n + 1, r => colorAtAux w (colorAt w n) (n + 1) r

/-- `World::shade_hit` proper: the callback is `color_at` at `remaining - 1`. -/
def shadeHit (w : World) (comps : Comps) (remaining : Nat) : Option Color :=
  shadeHitAux w (fun r => colorAt w (remaining - 1) r) comps remaining

/-- `World::reflected_color` proper. -/
def reflectedColor (w : World) (comps : Comps) (remaining : Nat) : Option Color :=
  reflectedColorAux (fun r => colorAt w (remaining - 1) r) comps remaining

/-- `World::refracted_color` proper. -/
def refractedColor (w : World) (comps : Comps) (remaining : Nat) : Option Color :=
  refractedColorAux (fun r => colorAt w (remaining - 1) r) comps remaining

/-- `color_at` instrumented with a gas counter that pays one unit for every
nested `color_at` activation and aborts (`none`) when exhausted; used to
bound the recursion depth of the shading pipeline. -/
def colorAtGas (w : World) : Nat → Nat → Ray → Option Color
  | 0, _, _ => none
  | gas + 1, remaining, r =>
      colorAtAux w (fun r2 => colorAtGas w gas (remaining - 1) r2) remaining r

instance : DecidableEq F64 := fun a b =>
  decidable_of_iff (a.num = b.num ∧ a.den = b.den) (by cases a; cases b; simp)

/-! IEEE extended values.  The cube slab test (`check_axis` in `shape.rs`,
lines 200-218) multiplies by `std::f64::INFINITY`, so its `f64` arithmetic is
modelled here by `FV`: a finite exact value, the two infinities, or NaN, with
the IEEE rules for the operations the slab test and the intersection sort
actually perform. -/
inductive FV : Type where
  | fin (q : F64)
  | inf
  | ninf
  | nan
deriving DecidableEq

/-- Is the value NaN? -/
def FV.isNan : FV → Bool
  | .nan => true
  | _ => false

/-- IEEE subtraction (the slab test only subtracts finite values). -/
def FV.sub : FV → FV → FV
  | .fin a, .fin b => .fin (a - b)
  | .fin _, .inf => .ninf
  | .fin _, .ninf => .inf
  | .inf, .fin _ => .inf
  | .ninf, .fin _ => .ninf
  | .inf, .ninf => .inf
  | .ninf, .inf => .ninf
  | _, _ => .nan

/-- IEEE absolute value. -/
def FV.abs : FV → FV
  | .fin a => .fin (F64.abs a)
  | .inf => .inf
  | .ninf => .inf
  | .nan => .nan

/-- IEEE multiplication: `0 * ∞ = NaN`, sign rules otherwise, NaN propagates. -/
def FV.mul : FV → FV → FV
  | .fin a, .fin b => .fin (a * b)
  | .fin a, .inf => if F64.blt 0 a then .inf else if F64.blt a 0 then .ninf else .nan
  | .fin a, .ninf => if F64.blt 0 a then .ninf else if F64.blt a 0 then .inf else .nan
  | .inf, .fin a => if F64.blt 0 a then .inf else if F64.blt a 0 then .ninf else .nan
  | .ninf, .fin a => if F64.blt 0 a then .ninf else if F64.blt a 0 then .inf else .nan
  | .inf, .inf => .inf
  | .inf, .ninf => .ninf
  | .ninf, .inf => .ninf
  | .ninf, .ninf => .inf
  | _, _ => .nan

/-- IEEE division: a finite value divided by exact zero gives a signed
infinity (`0/0` gives NaN), NaN propagates. -/
def FV.div : FV → FV → FV
  | .fin a, .fin b =>
      if F64.beq b 0 then
        if F64.blt 0 a then .inf else if F64.blt a 0 then .ninf else .nan
      else .fin (a / b)
  | .fin _, .inf => .fin 0
  | .fin _, .ninf => .fin 0
  | .inf, .fin b => if F64.blt b 0 then .ninf else .inf
  | .ninf, .fin b => if F64.blt b 0 then .inf else .ninf
  | _, _ => .nan

/-- IEEE `<`: false whenever NaN is involved. -/
def FV.lt : FV → FV → Bool
  | .fin a, .fin b => F64.blt a b
  | .fin _, .inf => true
  | .ninf, .fin _ => true
  | .ninf, .inf => true
  | _, _ => false

/-- IEEE `>=`: false whenever NaN is involved. -/
def FV.ge (a b : FV) : Bool := !a.isNan && !b.isNan && !FV.lt a b

/-- IEEE `>`: false whenever NaN is involved. -/
def FV.gt (a b : FV) : Bool := FV.lt b a

/-- Rust's `f64::max`: ignores NaN (if one argument is NaN, the other is
returned). -/
def FV.max (a b : FV) : FV :=
  if a.isNan then b else if b.isNan then a else if FV.lt a b then b else a

/-- Rust's `f64::min`: ignores NaN. -/
def FV.min (a b : FV) : FV :=
  if a.isNan then b else if b.isNan then a else if FV.lt b a then b else a

/-- A ray with IEEE-extended components (only the coordinates the cube slab
test reads). -/
structure RayF where
  ox : FV
  oy : FV
  oz : FV
  dx : FV
  dy : FV
  dz : FV

/-- `check_axis` from `shape.rs` (lines 200-218): entry/exit parameters
against the `[-1,1]` slab; when the direction component is smaller than
`EPSILON` the numerators are multiplied by `std::f64::INFINITY` (so a zero
numerator produces NaN). -/
def checkAxisF (origin direction : FV) : FV × FV :=
  let tmin_numerator := FV.sub (.fin (-1)) origin
  let tmax_numerator := FV.sub (.fin 1) origin
  let p :=
    if FV.ge direction.abs (.fin EPSILON) then
      (FV.div tmin_numerator direction, FV.div tmax_numerator direction)
    else
      (FV.mul tmin_numerator .inf, FV.mul tmax_numerator .inf)
  if FV.gt p.1 p.2 then (p.2, p.1) else p

/-- The `ShapeForm::Cube` arm of `local_intersect` in `shape.rs` (lines
297-314), returning the list of `t` values: slab entry/exit per axis, overall
`tmin`/`tmax` by NaN-ignoring max/min, no hit when `tmin > tmax`. -/
def cubeLocalIntersectF (r : RayF) : List FV :=
  let xt := checkAxisF r.ox r.dx
  let yt := checkAxisF r.oy r.dy
  let zt := checkAxisF r.oz r.dz
  let tmin := FV.max (FV.max xt.1 yt.1) zt.1
  let tmax := FV.min (FV.min xt.2 yt.2) zt.2
  if FV.gt tmin tmax then [] else [tmin, tmax]

/-- Ascending insertion for extended values (used only on NaN-free lists). -/
def insertFV (x : FV) : List FV → List FV
  | [] => [x]
  | y :: ys => if FV.lt x y then x :: y :: ys else y :: insertFV x ys

/-- `World::intersect` (`scene.rs` lines 19-26) specialised to a world holding
a single unit cube with the identity transform (so the trait `intersect`
wrapper leaves the ray unchanged): collect the cube's intersections, then
`sort_by(partial_cmp(..).unwrap())`.  `partial_cmp` returns `None` on NaN, so
the sort panics (`none`) whenever a NaN `t` is present in a list with at
least two elements (every element takes part in a comparison). -/
def worldIntersectCubeF (r : RayF) : Option (List FV) :=
  let xs := cubeLocalIntersectF r
  if 2 ≤ xs.length ∧ xs.any FV.isNan then none
  else some (xs.foldl (fun acc t => insertFV t acc) [])

/-! Spec-side definitions (written from the specification's words, for
comparison with the source-derived definitions above), and the concrete
scenario data used by individual claims. -/

/-- The CSG admission table exactly as printed in spec §4.2. -/
def specAdmit (op : CsgOp) (side : HitSide) (inl inr : Bool) : Bool :=
  match op, side with
  | .union, .left => !inr
  | .union, .right => !inl
  | .intersection, .left => inr
  | .intersection, .right => inl
  | .difference, .left => !inr
  | .difference, .right => inl

/-- The single-scan filter exactly as the spec words it: classify each
intersection via `includes`, test the admission table with the pre-toggle
flags, keep it if admitted, then toggle the flag of the side that was hit. -/
def specFilterScan (op : CsgOp) (left : Shape) :
    List Intersection → Bool → Bool → List Intersection
  | [], _, _ => []
  | i :: rest, inl, inr =>
      let side := if left.includes i.object then HitSide.left else HitSide.right
      let keep := specAdmit op side inl inr
      let inl2 := if side == HitSide.left then !inl else inl
      let inr2 := if side == HitSide.left then inr else !inr
      (if keep then [i] else []) ++ specFilterScan op left rest inl2 inr2

/-- Is `i` a non-negative-`t` intersection of minimal `t` among the
non-negative ones of `xs`? -/
def isMinNonneg (xs : List Intersection) (i : Intersection) : Bool :=
  F64.ble 0 i.t && xs.all fun j => !F64.ble 0 j.t || F64.ble i.t j.t

/-- The hit exactly as the spec words it: the intersection with the smallest
non-negative `t`, ties broken by input order. -/
def specHit (xs : List Intersection) : Option Intersection := xs.find? (isMinNonneg xs)

/-- The surface term of the per-light closure in `shade_hit`: Phong lighting
at `over_point` with the `is_shadowed` test. -/
def surfaceColor (w : World) (comps : Comps) (l : PointLight) : Option Color :=
  match isShadowed w comps.over_point with
  | none => none
  | some shadowed =>
      lighting comps.object.material comps.object l comps.over_point comps.eyev
        comps.normalv shadowed

/-- The light-independent secondary-ray contribution of the per-light closure:
reflected and refracted colors, Schlick-blended when the material is both
reflective and transparent, summed otherwise. -/
def contribAux (recur : Ray → Option Color) (comps : Comps) (remaining : Nat) :
    Option Color :=
  match reflectedColorAux recur comps remaining with
  | none => none
  | some reflected =>
    match refractedColorAux recur comps remaining with
    | none => none
    | some refracted =>
      let material := comps.object.material
      if F64.blt 0 material.reflective && F64.blt 0 material.transparency then
        let reflectance := schlick comps
        some (reflected * reflectance + refracted * (1 - reflectance))
      else some (reflected + refracted)

/-- `contribAux` with the callback `shade_hit` actually uses. -/
def contribColor (w : World) (comps : Comps) (remaining : Nat) : Option Color :=
  contribAux (fun r => colorAt w (remaining - 1) r) comps remaining

/-- The per-light surface terms over a list of lights (failure propagates). -/
def surfacesList (w : World) (comps : Comps) : List PointLight → Option (List Color)
  | [] => some []
  | l :: rest =>
      match surfaceColor w comps l with
      | none => none
      | some s =>
        match surfacesList w comps rest with
        | none => none
        | some ss => some (s :: ss)

/-- An `f64` from a natural number. -/
def natF (n : Nat) : F64 := ⟨n, 1, one_pos⟩

/-- Sum of a list of colors. -/
def sumColors (cs : List Color) : Color := cs.foldl (fun a b => a + b) black

/-- `shade_hit` as claim C4 words it: the per-light Phong sum with the
reflected/refracted contribution added ONCE. -/
def shadeHitClaimOnce (w : World) (comps : Comps) (remaining : Nat) : Option Color :=
  match surfacesList w comps w.lights with
  | none => none
  | some ss =>
    match contribColor w comps remaining with
    | none => none
    | some k => some (sumColors ss + k)

/-- `shade_hit` as the code actually behaves: the per-light Phong sum with the
reflected/refracted contribution added once PER LIGHT, i.e. scaled by the
number of lights. -/
def shadeHitSpecMulti (w : World) (comps : Comps) (remaining : Nat) : Option Color :=
  match surfacesList w comps w.lights with
  | none => none
  | some ss =>
    match contribColor w comps remaining with
    | none => none
    | some k => some (sumColors ss + k * natF w.lights.length)

/-- The rational value of a color. -/
def colorRat (c : Color) : ℚ × ℚ × ℚ := (toRat c.red, toRat c.green, toRat c.blue)

/-- Does the optional color hold exactly this color value? -/
def optColorIs (o : Option Color) (c : Color) : Bool :=
  match o with
  | none => false
  | some x => colorValEq x c

/-- Does `prepare_computations` succeed with exactly these `n1`/`n2` values? -/
def n1n2Is (self : Intersection) (r : Ray) (xs : List Intersection) (a b : F64) : Bool :=
  match prepareComputations self r xs with
  | none => false
  | some comps => F64.beq comps.n1 a && F64.beq comps.n2 b

/-- A default unit sphere (`Sphere::new()`). -/
def unitSphere : Shape := Shape.sphere identity4 Material.new

/-- The C2 counterexample list: `t` values `5`, `0`, `2` on a unit sphere. -/
def xs0 : List Intersection :=
  [Intersection.new 5 unitSphere, Intersection.new 0 unitSphere,
   Intersection.new 2 unitSphere]

/-- Pointwise equality of the code's admission rule and the spec's table. -/
theorem admit_eq (op : CsgOp) (side : HitSide) (inl inr : Bool) :
    intersectionAllowed op side inl inr = specAdmit op side inl inr := by
  cases op <;> cases side <;> cases inl <;> cases inr <;> rfl

/-- The `foldl` loop of `filter_intersections` computes the spec's scan,
prefixed by whatever is already in the accumulator. -/
theorem filterFold_eq (op : CsgOp) (left : Shape) :
    ∀ (xs : List Intersection) (inl inr : Bool) (acc : List Intersection),
      (xs.foldl (filterStep op left) (inl, inr, acc)).2.2 =
        acc ++ specFilterScan op left xs inl inr := by
  intro xs
  induction xs with
  | nil => intro inl inr acc; simp [specFilterScan]
  | cons i rest ih =>
    intro inl inr acc
    rw [List.foldl_cons]
    by_cases hside : left.includes i.object = true
    · by_cases hkeep : specAdmit op HitSide.left inl inr = true
      · have hstep : filterStep op left (inl, inr, acc) i = (!inl, inr, acc ++ [i]) := by
          simp [filterStep, hside, admit_eq, hkeep]
        rw [hstep, ih]
        simp [specFilterScan, hside, hkeep, List.append_assoc]
      · have hstep : filterStep op left (inl, inr, acc) i = (!inl, inr, acc) := by
          simp [filterStep, hside, admit_eq, hkeep]
        rw [hstep, ih]
        simp [specFilterScan, hside, hkeep]
    · by_cases hkeep : specAdmit op HitSide.right inl inr = true
      · have hstep : filterStep op left (inl, inr, acc) i = (inl, !inr, acc ++ [i]) := by
          simp [filterStep, hside, admit_eq, hkeep]
        rw [hstep, ih]
        simp [specFilterScan, hside, hkeep, List.append_assoc]
      · have hstep : filterStep op left (inl, inr, acc) i = (inl, !inr, acc) := by
          simp [filterStep, hside, admit_eq, hkeep]
        rw [hstep, ih]
        simp [specFilterScan, hside, hkeep]

/-- C1: the CSG admission rule agrees with the §4.2 table in all 3 × 2 × 2 × 2
cases, and `filter_intersections` is a single scan of the combined list that
classifies each intersection via `includes`, tests admission with the
pre-toggle `inLeft`/`inRight` flags (both starting `false`), keeps the
intersection if admitted, and then toggles the flag of the side that was
hit. -/
theorem csg_admission_table_and_filter_scan :
    (∀ op side inl inr, intersectionAllowed op side inl inr = specAdmit op side inl inr) ∧
    (∀ op left xs, filterIntersections op left xs = specFilterScan op left xs false false) := by
  refine ⟨admit_eq, fun op left xs => ?_⟩
  unfold filterIntersections
  simpa using filterFold_eq op left xs false false []

/-- `hit` scans the list in input order and returns the first strictly
positive `t`. -/
theorem hitI_eq_find (xs : List Intersection) :
    hitI xs = xs.find? (fun i => F64.blt 0 i.t) := by
  induction xs with
  | nil => rfl
  | cons i rest ih =>
    show (if F64.blt 0 i.t then some i else hitI rest) = _
    cases h : F64.blt 0 i.t <;> simp [List.find?, h, ih]

/-- `hit` returns `None` exactly when no intersection has `t > 0`. -/
theorem hitI_none_iff (xs : List Intersection) :
    (hitI xs).isNone = xs.all fun i => !F64.blt 0 i.t := by
  induction xs with
  | nil => rfl
  | cons i rest ih =>
    show (if F64.blt 0 i.t then some i else hitI rest).isNone = _
    cases h : F64.blt 0 i.t <;> simp [h, ih]

/-- When the hit is `None`, `color_at` returns black. -/
theorem colorAt_black (w : World) (r : Ray) (rem : Nat) (xs : List Intersection)
    (h1 : worldIntersect w r = some xs) (h2 : hitI xs = none) :
    colorAt w rem r = some black := by
  have haux : ∀ (cb : Ray → Option Color) (n : Nat), colorAtAux w cb n r = some black := by
    intro cb n
    simp [colorAtAux, h1, h2]
  cases rem with
  | zero => exact haux _ _
  | succ n => exact haux _ _

/-- C2 (counterexample): on the list with `t` values `5, 0, 2`, `hit` returns
the `t = 5` intersection (the first strictly positive one in input order),
not the `t = 0` intersection that has the smallest non-negative `t` as the
claim states. -/
theorem hit_not_smallest_nonneg_counterexample :
    (hitI xs0).map Intersection.t = some 5 ∧
    (specHit xs0).map Intersection.t = some 0 ∧
    ((hitI xs0).map Intersection.t ≠ (specHit xs0).map Intersection.t) := by
  refine ⟨by decide, by decide, by decide⟩

/-- C2 (amended): `hit` returns the first intersection in input order with
strictly positive `t` (so on a `t`-sorted list, the smallest positive one),
returns `None` exactly when every `t ≤ 0`, and `color_at` returns black
whenever the hit is `None`. -/
theorem hit_first_positive_and_background :
    (∀ xs, hitI xs = xs.find? fun i => F64.blt 0 i.t) ∧
    (∀ xs, (hitI xs).isNone = xs.all fun i => !F64.blt 0 i.t) ∧
    (∀ w r rem xs, worldIntersect w r = some xs → hitI xs = none →
      colorAt w rem r = some black) := by
  exact ⟨hitI_eq_find, hitI_none_iff, fun w r rem xs h1 h2 => colorAt_black w r rem xs h1 h2⟩

/-- Witness for the amended C2 theorem: a world with no objects, where the
intersection list is empty, the hit is `None`, and `color_at` is black. -/
theorem hit_first_positive_and_background_witness :
    colorAt ⟨[], []⟩ 4 ⟨pt 0 0 0, vec 0 0 1⟩ = some black :=
  hit_first_positive_and_background.2.2 ⟨[], []⟩ ⟨pt 0 0 0, vec 0 0 1⟩ 4 [] (by rfl) (by rfl)

/-- A glass material with the given refractive index (`Sphere::glass` plus the
test's `refractive_index` overrides). -/
def glassMaterial (ri : F64) : Material :=
  { Material.new with transparency := 1, refractive_index := ri }

/-- Sphere `A` of the refractive-stack scenario: glass (index 1.5), scaled by 2. -/
def sphereA : Shape := Shape.sphere (scaling 2 2 2) (glassMaterial (mkF 3 2))

/-- Sphere `B`: glass with index 2.0, translated to `z = -0.25`. -/
def sphereB : Shape := Shape.sphere (translation 0 0 (mkF (-1) 4)) (glassMaterial 2)

/-- Sphere `C`: glass with index 2.5, translated to `z = 0.25`. -/
def sphereC : Shape := Shape.sphere (translation 0 0 (mkF 1 4)) (glassMaterial (mkF 5 2))

/-- The refractive-stack ray: origin `(0,0,-4)`, direction `(0,0,1)`. -/
def rayN : Ray := ⟨pt 0 0 (-4), vec 0 0 1⟩

/-- The six `t`-sorted intersections of `rayN` with the three glass spheres. -/
def xsN : List Intersection :=
  [Intersection.new 2 sphereA, Intersection.new (mkF 11 4) sphereB,
   Intersection.new (mkF 13 4) sphereC, Intersection.new (mkF 19 4) sphereB,
   Intersection.new (mkF 21 4) sphereC, Intersection.new 6 sphereA]

/-- C3: across the six sorted intersections of a ray through three concentric
glass spheres of refractive index 1.5 / 2.0 / 2.5, `prepare_computations`
(whose `n1`/`n2` come from the single `containers`-stack scan up to and
including the current hit) yields the `(n1,n2)` sequence
`(1,1.5),(1.5,2),(2,2.5),(2.5,2.5),(2.5,1.5),(1.5,1)`. -/
theorem refractive_stack_n1_n2 :
    n1n2Is (Intersection.new 2 sphereA) rayN xsN 1 (mkF 3 2) = true ∧
    n1n2Is (Intersection.new (mkF 11 4) sphereB) rayN xsN (mkF 3 2) 2 = true ∧
    n1n2Is (Intersection.new (mkF 13 4) sphereC) rayN xsN 2 (mkF 5 2) = true ∧
    n1n2Is (Intersection.new (mkF 19 4) sphereB) rayN xsN (mkF 5 2) (mkF 5 2) = true ∧
    n1n2Is (Intersection.new (mkF 21 4) sphereC) rayN xsN (mkF 5 2) (mkF 3 2) = true ∧
    n1n2Is (Intersection.new 6 sphereA) rayN xsN (mkF 3 2) 1 = true := by
  refine ⟨by decide, by decide, by decide, by decide, by decide, by decide⟩

/-- Lower mirror plane material: pure ambient, fully reflective. -/
def mirrorMaterial : Material :=
  { Material.new with ambient := 1, diffuse := 0, specular := 0, reflective := 1 }

/-- Upper matte plane material: pure ambient. -/
def matteMaterial : Material :=
  { Material.new with ambient := 1, diffuse := 0, specular := 0 }

/-- Lower plane (`y = 0`), the mirror. -/
def lowerPlane : Shape := Shape.plane identity4 mirrorMaterial

/-- Upper plane (`y = 2`), matte white. -/
def upperPlane : Shape := Shape.plane (translation 0 2 0) matteMaterial

/-- A white light at `(0, 5, 0)`. -/
def lightAbove : PointLight := ⟨pt 0 5 0, ⟨1, 1, 1⟩⟩

/-- The two-light world of the C4 counterexample: the same light listed
twice, a mirror plane and a matte plane. -/
def twoLightWorld : World := ⟨[lowerPlane, upperPlane], [lightAbove, lightAbove]⟩

/-- A hand-built `Comps` on the mirror plane: hit point `(0,1,0)` (already
nudged), reflection straight up. -/
def mirrorComps : Comps :=
  { t := 1, object := lowerPlane, point := pt 0 1 0, eyev := vec 0 1 0,
    normalv := vec 0 1 0, reflectv := vec 0 1 0, inside := false,
    over_point := pt 0 1 0, under_point := pt 0 1 0, n1 := 1, n2 := 1 }

/-- C4 (counterexample): in the two-light world, `shade_hit` returns
`(6,6,6)` — each light's term adds the reflected contribution again — while
the claim's formula (surface sum plus the reflected/refracted contribution
added once) yields `(4,4,4)`. -/
theorem shade_hit_adds_secondary_per_light_counterexample :
    optColorIs (shadeHit twoLightWorld mirrorComps 1) ⟨6, 6, 6⟩ = true ∧
    optColorIs (shadeHitClaimOnce twoLightWorld mirrorComps 1) ⟨4, 4, 4⟩ = true := by
  refine ⟨by decide, by decide⟩

theorem colorRat_add (a b : Color) : colorRat (a + b) = colorRat a + colorRat b := by
  show colorRat ⟨a.red + b.red, a.green + b.green, a.blue + b.blue⟩ = _
  simp [colorRat, toRat_add, Prod.ext_iff]

theorem colorRat_black : colorRat black = 0 := by
  simp [colorRat, black, toRat_zero, Prod.ext_iff]

theorem toRat_natF (n : Nat) : toRat (natF n) = (n : ℚ) := by
  simp [natF, toRat]

theorem colorRat_mul_natF (k : Color) (n : Nat) :
    colorRat (k * natF n) = n • colorRat k := by
  show colorRat ⟨k.red * natF n, k.green * natF n, k.blue * natF n⟩ = _
  simp [colorRat, toRat_mul, toRat_natF, Prod.ext_iff, nsmul_eq_mul]
  refine ⟨mul_comm _ _, mul_comm _ _, mul_comm _ _⟩

/-- Shifting an initial summand out of a `foldl` over an additive commutative
monoid. -/
theorem foldl_add_shift {M : Type} [AddCommMonoid M] (l : List M) (a b : M) :
    l.foldl (fun x y => x + y) (a + b) = l.foldl (fun x y => x + y) a + b := by
  induction l generalizing a with
  | nil => rfl
  | cons x xs ih =>
    show xs.foldl _ (a + b + x) = xs.foldl _ (a + x) + b
    rw [show a + b + x = a + x + b by abel, ih]

/-- `colorRat` commutes with the color-summing fold. -/
theorem colorRat_foldl (cs : List Color) (c : Color) :
    colorRat (cs.foldl (fun x y => x + y) c) =
      (cs.map colorRat).foldl (fun x y => x + y) (colorRat c) := by
  induction cs generalizing c with
  | nil => rfl
  | cons x xs ih =>
    show colorRat (xs.foldl _ (c + x)) = _
    rw [ih, colorRat_add]
    rfl

/-- Folding a list whose every element carries an extra summand `K` adds
`length • K` to the total. -/
theorem foldl_map_add_const {M : Type} [AddCommMonoid M] (K : M) :
    ∀ (ss : List M) (acc : M),
      (ss.map fun s => s + K).foldl (fun x y => x + y) acc =
        ss.foldl (fun x y => x + y) acc + ss.length • K := by
  intro ss
  induction ss with
  | nil => intro acc; simp
  | cons s rest ih =>
    intro acc
    show (rest.map _).foldl _ (acc + (s + K)) = _
    rw [show acc + (s + K) = acc + s + K by abel, foldl_add_shift, ih]
    show _ = rest.foldl _ (acc + s) + (rest.length + 1) • K
    rw [succ_nsmul, add_assoc]

/-- The per-light closure decomposes into the surface term plus the
light-independent secondary contribution (at the level of color values). -/
theorem perLightAux_decomp (w : World) (recur : Ray → Option Color) (comps : Comps)
    (rem : Nat) (l : PointLight) :
    (perLightAux w recur comps rem l).map colorRat =
      (surfaceColor w comps l).bind fun s =>
        (contribAux recur comps rem).map fun k => colorRat s + colorRat k := by
  cases hsh : isShadowed w comps.over_point with
  | none => simp [perLightAux, surfaceColor, hsh]
  | some shadowed =>
    cases hl : lighting comps.object.material comps.object l comps.over_point comps.eyev
        comps.normalv shadowed with
    | none => simp [perLightAux, surfaceColor, hsh, hl]
    | some s =>
      cases ha : reflectedColorAux recur comps rem with
      | none => simp [perLightAux, surfaceColor, contribAux, hsh, hl, ha]
      | some a =>
        cases hb : refractedColorAux recur comps rem with
        | none => simp [perLightAux, surfaceColor, contribAux, hsh, hl, ha, hb]
        | some b =>
          cases hcond : (F64.blt 0 comps.object.material.reflective &&
              F64.blt 0 comps.object.material.transparency) with
          | true =>
            simp only [perLightAux, surfaceColor, contribAux, hsh, hl, ha, hb, hcond,
              if_true, Option.map_some, Option.bind_some]
            simp [colorRat_add, add_assoc]
          | false =>
            simp only [perLightAux, surfaceColor, contribAux, hsh, hl, ha, hb, hcond,
              Bool.false_eq_true, if_false, Option.map_some, Option.bind_some]
            simp [colorRat_add, add_assoc]

/-- `surfacesList` preserves the number of lights. -/
theorem surfacesList_length (w : World) (comps : Comps) :
    ∀ ls ss, surfacesList w comps ls = some ss → ss.length = ls.length := by
  intro ls
  induction ls with
  | nil => intro ss h; cases h; rfl
  | cons l rest ih =>
    intro ss h
    unfold surfacesList at h
    cases hs : surfaceColor w comps l with
    | none => rw [hs] at h; cases h
    | some s =>
      rw [hs] at h
      cases hr : surfacesList w comps rest with
      | none => rw [hr] at h; cases h
      | some ss2 =>
        rw [hr] at h
        cases h
        simp [ih ss2 hr]

/-- The per-light color list decomposes into the surface list and the shared
secondary contribution. -/
theorem perLightsList_decomp (w : World) (recur : Ray → Option Color) (comps : Comps)
    (rem : Nat) :
    ∀ ls, (perLightsList w recur comps rem ls).map (List.map colorRat) =
      (surfacesList w comps ls).bind fun ss =>
        if ls.isEmpty then some []
        else (contribAux recur comps rem).map fun k =>
          ss.map fun s => colorRat s + colorRat k := by
  intro ls
  induction ls with
  | nil => simp [perLightsList, surfacesList]
  | cons l rest ih =>
    show (match perLightAux w recur comps rem l with
          | none => none
          | some c =>
            match perLightsList w recur comps rem rest with
            | none => none
            | some cs => some (c :: cs)).map (List.map colorRat) = _
    have hdec := perLightAux_decomp w recur comps rem l
    cases hs : surfaceColor w comps l with
    | none =>
      have hnone : perLightAux w recur comps rem l = none := by
        rw [hs] at hdec
        simpa using hdec
      simp [hnone, surfacesList, hs]
    | some s =>
      cases hk : contribAux recur comps rem with
      | none =>
        have hnone : perLightAux w recur comps rem l = none := by
          rw [hs, hk] at hdec
          simpa using hdec
        simp [hnone, surfacesList, hs, hk]
      | some k =>
        rw [hs, hk] at hdec
        rw [Option.some_bind, Option.map_some'] at hdec
        obtain ⟨c, hc, hcr⟩ := Option.map_eq_some'.mp hdec
        cases hr : surfacesList w comps rest with
        | none =>
          have hplr : perLightsList w recur comps rem rest = none := by
            have h2 := ih
            rw [hr] at h2
            simpa using h2
          simp [hc, hplr, surfacesList, hs, hr]
        | some ss =>
          have h2 := ih
          rw [hr, hk] at h2
          by_cases hempty : rest = []
          · subst hempty
            have hss : ss = [] := by
              have : surfacesList w comps [] = some [] := rfl
              rw [this] at hr
              exact (Option.some.inj hr).symm
            subst hss
            simp [hc, perLightsList, surfacesList, hs, hr, hk, hcr]
          · have hne : rest.isEmpty = false := by
              cases rest
              · exact absurd rfl hempty
              · rfl
            rw [hne] at h2
            rw [Option.some_bind, Option.map_some'] at h2
            obtain ⟨cs, hcs, hcsr⟩ := Option.map_eq_some'.mp h2
            simp [hc, hcs, surfacesList, hs, hr, hk, hcr, hcsr]

/-- C4 (amended): `shade_hit` computes, for each light, the Phong surface
color at `over_point` with the `is_shadowed` test, PLUS the reflected and
refracted contributions (Schlick-blended when the material is both reflective
and transparent) — so across the light list the secondary contribution is
added once per light, i.e. the total equals the surface sum plus the
contribution scaled by the number of lights. -/
theorem shade_hit_secondary_scaled_by_lights (w : World) (comps : Comps) (rem : Nat)
    (h : w.lights ≠ []) :
    (shadeHit w comps rem).map colorRat = (shadeHitSpecMulti w comps rem).map colorRat := by
  cases hls : w.lights with
  | nil => exact absurd hls h
  | cons l ls =>
    show (shadeHitAux w (fun r => colorAt w (rem - 1) r) comps rem).map colorRat = _
    set recur := fun r => colorAt w (rem - 1) r with hrec
    unfold shadeHitAux shadeHitSpecMulti contribColor
    rw [hls]
    have hdec := perLightsList_decomp w recur comps rem (l :: ls)
    cases hsl : surfacesList w comps (l :: ls) with
    | none =>
      have hnone : perLightsList w recur comps rem (l :: ls) = none := by
        rw [hsl] at hdec
        simpa using hdec
      rw [hnone]
    | some ss =>
      cases hk : contribAux recur comps rem with
      | none =>
        have hnone : perLightsList w recur comps rem (l :: ls) = none := by
          rw [hsl, Option.some_bind] at hdec
          simp only [List.isEmpty_cons, Bool.false_eq_true, if_false, hk,
            Option.map_none'] at hdec
          simpa using hdec
        rw [hnone]
      | some k =>
        rw [hsl, Option.some_bind] at hdec
        simp only [List.isEmpty_cons, Bool.false_eq_true, if_false, hk,
          Option.map_some'] at hdec
        obtain ⟨cs, hcs, hcsr⟩ := Option.map_eq_some'.mp hdec
        rw [hcs]
        cases cs with
        | nil =>
          exfalso
          have hlen := surfacesList_length w comps (l :: ls) ss hsl
          cases ss with
          | nil => simp at hlen
          | cons s0 ss' => simp at hcsr
        | cons c cs' =>
          cases ss with
          | nil =>
            exfalso
            have hlen := surfacesList_length w comps (l :: ls) [] hsl
            simp at hlen
          | cons s0 ss' =>
            simp only [List.map_cons, List.cons.injEq] at hcsr
            obtain ⟨hc0, hcs'⟩ := hcsr
            simp only [Option.map_some']
            congr 1
            have hlen : ss'.length = ls.length := by
              have := surfacesList_length w comps (l :: ls) (s0 :: ss') hsl
              simpa using this
            rw [colorRat_foldl, hcs', hc0]
            rw [colorRat_add, colorRat_mul_natF]
            have hsum : colorRat (sumColors (s0 :: ss')) =
                (ss'.map colorRat).foldl (fun x y => x + y) (colorRat s0) := by
              show colorRat (ss'.foldl (fun a b => a + b) (black + s0)) = _
              rw [colorRat_foldl, colorRat_add, colorRat_black, zero_add]
            rw [hsum]
            rw [show (ss'.map fun s => colorRat s + colorRat k) =
                  (ss'.map colorRat).map (fun x => x + colorRat k) by
                rw [List.map_map]; rfl]
            rw [foldl_add_shift, foldl_map_add_const]
            simp only [List.length_map, hlen, List.length_cons]
            rw [succ_nsmul, add_assoc]

/-- Witness for the amended C4 theorem at the concrete two-light world. -/
theorem shade_hit_secondary_scaled_by_lights_witness :
    (shadeHit twoLightWorld mirrorComps 1).map colorRat =
      (shadeHitSpecMulti twoLightWorld mirrorComps 1).map colorRat :=
  shade_hit_secondary_scaled_by_lights twoLightWorld mirrorComps 1 (List.cons_ne_nil _ _)

theorem reflectedColorAux_zero (recur : Ray → Option Color) (c : Comps) :
    reflectedColorAux recur c 0 = some black := rfl

theorem refractedColorAux_zero (recur : Ray → Option Color) (c : Comps) :
    refractedColorAux recur c 0 = some black := rfl

/-- At depth 0 the per-light closure never consults the recursive callback. -/
theorem perLightAux_callback_zero (w : World) (f g : Ray → Option Color) (c : Comps)
    (l : PointLight) : perLightAux w f c 0 l = perLightAux w g c 0 l := by
  unfold perLightAux
  simp only [reflectedColorAux_zero, refractedColorAux_zero]

theorem perLightsList_callback_zero (w : World) (f g : Ray → Option Color) (c : Comps) :
    ∀ ls, perLightsList w f c 0 ls = perLightsList w g c 0 ls := by
  intro ls
  induction ls with
  | nil => rfl
  | cons l rest ih =>
    show (match perLightAux w f c 0 l with
          | none => none
          | some x =>
            match perLightsList w f c 0 rest with
            | none => none
            | some cs => some (x :: cs)) = _
    rw [perLightAux_callback_zero w f g, ih]
    rfl

theorem shadeHitAux_callback_zero (w : World) (f g : Ray → Option Color) (c : Comps) :
    shadeHitAux w f c 0 = shadeHitAux w g c 0 := by
  unfold shadeHitAux
  rw [perLightsList_callback_zero w f g]

/-- At depth 0 `color_at` never consults the recursive callback. -/
theorem colorAtAux_callback_zero (w : World) (f g : Ray → Option Color) (r : Ray) :
    colorAtAux w f 0 r = colorAtAux w g 0 r := by
  obtain hw | ⟨xs, hw⟩ := (worldIntersect w r).eq_none_or_eq_some
  · simp only [colorAtAux, hw]
  · obtain hh | ⟨i, hh⟩ := (hitI xs).eq_none_or_eq_some
    · simp only [colorAtAux, hw, hh]
    · obtain hp | ⟨comps, hp⟩ := (prepareComputations i r xs).eq_none_or_eq_some
      · simp only [colorAtAux, hw, hh, hp]
      · simp only [colorAtAux, hw, hh, hp]
        exact shadeHitAux_callback_zero w f g comps

/-- A gas budget of `n + 1` nested `color_at` activations exactly reproduces
`color_at` at depth `n`: the mutual recursion makes at most `n` nested
recursive steps below the top-level call. -/
theorem colorAtGas_eq_colorAt (w : World) : ∀ (n : Nat) (r : Ray),
    colorAtGas w (n + 1) n r = colorAt w n r := by
  intro n
  induction n with
  | zero => intro r; exact colorAtAux_callback_zero w _ _ r
  | succ k ih =>
    intro r
    show colorAtAux w (fun r2 => colorAtGas w (k + 1) (k + 1 - 1) r2) (k + 1) r =
      colorAtAux w (colorAt w k) (k + 1) r
    have hcb : (fun r2 => colorAtGas w (k + 1) (k + 1 - 1) r2) = colorAt w k := by
      funext r2
      simpa using ih r2
    rw [hcb]

/-- C5: `reflected_color` and `refracted_color` return black immediately at
depth 0 and when the relevant material coefficient is 0; and `color_at` at
depth `n` needs only `n + 1` nested activations — the depth counter is a hard
bound on the mutual recursion, so `color_at` terminates for every world and
ray. -/
theorem color_at_depth_bounded (w : World) (c : Comps) (n : Nat) (r : Ray) :
    reflectedColor w c 0 = some black ∧
    refractedColor w c 0 = some black ∧
    (F64.beq c.object.material.reflective 0 = true →
      ∀ m, reflectedColor w c m = some black) ∧
    (F64.beq c.object.material.transparency 0 = true →
      ∀ m, refractedColor w c m = some black) ∧
    colorAtGas w (n + 1) n r = colorAt w n r := by
  refine ⟨rfl, rfl, ?_, ?_, colorAtGas_eq_colorAt w n r⟩
  · intro h m
    cases m with
    | zero => rfl
    | succ k => simp [reflectedColor, reflectedColorAux, h]
  · intro h m
    cases m with
    | zero => rfl
    | succ k => simp [refractedColor, refractedColorAux, h]

/-- A `Comps` on the matte (non-reflective, non-transparent) plane. -/
def matteComps : Comps := { mirrorComps with object := upperPlane }

/-- Witness for C5 at concrete inputs. -/
theorem color_at_depth_bounded_witness :
    reflectedColor twoLightWorld matteComps 0 = some black ∧
    refractedColor twoLightWorld matteComps 0 = some black ∧
    reflectedColor twoLightWorld matteComps 5 = some black ∧
    refractedColor twoLightWorld matteComps 5 = some black ∧
    colorAtGas twoLightWorld 3 2 ⟨pt 0 3 0, vec 0 1 0⟩ =
      colorAt twoLightWorld 2 ⟨pt 0 3 0, vec 0 1 0⟩ := by
  obtain ⟨h1, h2, h3, h4, h5⟩ :=
    color_at_depth_bounded twoLightWorld matteComps 2 ⟨pt 0 3 0, vec 0 1 0⟩
  exact ⟨h1, h2, h3 (by decide) 5, h4 (by decide) 5, h5⟩

/-- A sphere with a non-invertible (all-zero-scale) transform. -/
def degenerateSphere : Shape := Shape.sphere (scaling 0 0 0) Material.new

/-- C6 (counterexample): on a shape with a non-invertible transform,
`intersect` and `normal_at` do not return "no intersections" / a fallback —
they hit `inverse().unwrap()` and panic (modelled by `none`). -/
theorem degenerate_transform_panics_counterexample :
    Shape.intersect degenerateSphere ⟨pt 0 0 (-5), vec 0 0 1⟩ = none ∧
    Shape.normalAt degenerateSphere (pt 0 0 1) = none ∧
    ¬ Shape.intersect degenerateSphere ⟨pt 0 0 (-5), vec 0 0 1⟩ = some [] := by
  have h1 : Shape.intersect degenerateSphere ⟨pt 0 0 (-5), vec 0 0 1⟩ = none := rfl
  have h2 : Shape.normalAt degenerateSphere (pt 0 0 1) = none := rfl
  exact ⟨h1, h2, fun hc => Option.noConfusion (h1.symm.trans hc)⟩

/-- C6 (amended): `inverse()` itself returns `None` exactly when the
determinant is zero; `Shape::intersects`/`normal_at` `unwrap` that `None`, so
on a shape whose transform has determinant zero both panic (`none`) instead
of handling the degeneracy locally — degenerate matrices must be rejected
before the core (spec §6). -/
theorem degenerate_transform_unwrap_panics (s : Shape) (r : Ray) (p : Tuple)
    (h : F64.beq (det4 s.transform) 0 = true) :
    inverse4 s.transform = none ∧ s.intersect r = none ∧ s.normalAt p = none ∧
    (∀ m : Mat4, inverse4 m = none ↔ F64.beq (det4 m) 0 = true) := by
  have hiff : ∀ m : Mat4, inverse4 m = none ↔ F64.beq (det4 m) 0 = true := by
    intro m
    unfold inverse4
    by_cases hm : F64.beq (det4 m) 0 = true <;> simp [hm]
  have hinv : inverse4 s.transform = none := (hiff s.transform).mpr h
  refine ⟨hinv, ?_, ?_, hiff⟩
  · unfold Shape.intersect
    rw [hinv]
  · unfold Shape.normalAt
    rw [hinv]

/-- Witness for the amended C6 theorem on the degenerate sphere. -/
theorem degenerate_transform_unwrap_panics_witness :
    inverse4 degenerateSphere.transform = none ∧
    degenerateSphere.intersect ⟨pt 0 0 (-5), vec 0 0 1⟩ = none ∧
    degenerateSphere.normalAt (pt 0 0 1) = none ∧
    (∀ m : Mat4, inverse4 m = none ↔ F64.beq (det4 m) 0 = true) :=
  degenerate_transform_unwrap_panics degenerateSphere ⟨pt 0 0 (-5), vec 0 0 1⟩
    (pt 0 0 1) (by decide)

/-- A `Comps` in a total-internal-reflection configuration: `n1 = 2 > n2 = 1`,
grazing geometry (`cos = 0`). -/
def tirComps : Comps :=
  { t := 1, object := unitSphere, point := pt 0 0 0, eyev := vec 1 0 0,
    normalv := vec 0 1 0, reflectv := vec 0 0 0, inside := false,
    over_point := pt 0 0 0, under_point := pt 0 0 0, n1 := 2, n2 := 1 }

/-- A `Comps` at normal incidence on a vacuum/glass interface: `n1 = 1`,
`n2 = 1.5`, eye vector equal to the (unit) normal so `cos = 1`. -/
def normalIncidenceComps : Comps :=
  { t := 1, object := unitSphere, point := pt 0 0 0, eyev := vec 0 0 (-1),
    normalv := vec 0 0 (-1), reflectv := vec 0 0 0, inside := false,
    over_point := pt 0 0 0, under_point := pt 0 0 0, n1 := 1, n2 := mkF 3 2 }

/-- C8: `schlick` returns exactly `1.0` whenever `n1 > n2` and the derived
`sin²θt = (n1/n2)²(1 − cos²)` exceeds `1` (total internal reflection), and at
normal incidence on the vacuum/glass interface it returns exactly `0.04`
(hence within epsilon `1e-5` of `0.04`). -/
theorem schlick_tir_and_normal_incidence :
    (∀ comps : Comps, F64.blt comps.n2 comps.n1 = true →
      F64.blt 1 ((comps.n1 / comps.n2) ^ (2 : Nat) *
        (1 - (comps.eyev.dot comps.normalv) ^ (2 : Nat))) = true →
      schlick comps = 1) ∧
    equalF (schlick normalIncidenceComps) (mkF 4 100) = true ∧
    F64.beq (schlick normalIncidenceComps) (mkF 1 25) = true := by
  refine ⟨?_, by decide, by decide⟩
  intro comps h1 h2
  unfold schlick
  rw [h1]
  simp only [if_true, h2]

/-- Witness for the total-internal-reflection branch of the C8 theorem. -/
theorem schlick_tir_witness : schlick tirComps = 1 :=
  schlick_tir_and_normal_incidence.1 tirComps (by decide) (by decide)

/-- Exactly-equal values are epsilon-equal. -/
theorem equalF_of_toRat_eq (a b : F64) (hab : toRat a = toRat b) : equalF a b = true := by
  unfold equalF
  rw [blt_iff, toRat_abs, toRat_sub, hab, sub_self, abs_zero]
  norm_num [toRat, EPSILON, mkF]

/-- The classical adjugate identity, column by column: the dot product of the
`l`-th cofactor column with the `j`-th matrix column is the determinant when
`l = j` and `0` otherwise. -/
theorem adjugate_identity (M : Mat4) : ∀ l j, l < 4 → j < 4 →
    toRat (cofactor4 M 0 l) * toRat (M 0 j) + toRat (cofactor4 M 1 l) * toRat (M 1 j) +
      toRat (cofactor4 M 2 l) * toRat (M 2 j) + toRat (cofactor4 M 3 l) * toRat (M 3 j) =
      if l = j then toRat (det4 M) else 0 := by
  intro l j hl hj
  interval_cases l <;> interval_cases j <;>
    (simp [cofactor4, minor4, det3, cofactor3, minor3, det2, submatrix4, submatrix3,
      skipIdx, det4, toRat_add, toRat_sub, toRat_mul, toRat_neg, toRat_one]
     ring)

/-- C9: for every 4×4 matrix with nonzero determinant, `inverse()` succeeds
and the round trip `M.inverse() * (M * p)` returns `p` exactly (hence
componentwise within epsilon `1e-5`, the `Tuple` equality of the source). -/
theorem inverse_roundtrip (M : Mat4) (p : Tuple) (h : F64.beq (det4 M) 0 = false) :
    ∃ N, inverse4 M = some N ∧ tupleApproxEq (m4tuple N (m4tuple M p)) p = true := by
  have hdet : toRat (det4 M) ≠ 0 := by
    intro hq
    have hb : F64.beq (det4 M) 0 = true := (beq_iff _ _).mpr (by rw [hq, toRat_zero])
    rw [h] at hb
    exact Bool.noConfusion hb
  have hA := adjugate_identity M
  have h00 := hA 0 0 (by norm_num) (by norm_num)
  have h01 := hA 0 1 (by norm_num) (by norm_num)
  have h02 := hA 0 2 (by norm_num) (by norm_num)
  have h03 := hA 0 3 (by norm_num) (by norm_num)
  have h10 := hA 1 0 (by norm_num) (by norm_num)
  have h11 := hA 1 1 (by norm_num) (by norm_num)
  have h12 := hA 1 2 (by norm_num) (by norm_num)
  have h13 := hA 1 3 (by norm_num) (by norm_num)
  have h20 := hA 2 0 (by norm_num) (by norm_num)
  have h21 := hA 2 1 (by norm_num) (by norm_num)
  have h22 := hA 2 2 (by norm_num) (by norm_num)
  have h23 := hA 2 3 (by norm_num) (by norm_num)
  have h30 := hA 3 0 (by norm_num) (by norm_num)
  have h31 := hA 3 1 (by norm_num) (by norm_num)
  have h32 := hA 3 2 (by norm_num) (by norm_num)
  have h33 := hA 3 3 (by norm_num) (by norm_num)
  norm_num at h00 h01 h02 h03 h10 h11 h12 h13 h20 h21 h22 h23 h30 h31 h32 h33
  refine ⟨fun i j => cofactor4 M j i / det4 M, ?_, ?_⟩
  · unfold inverse4
    rw [if_neg (by simp [h])]
  · have e1 : toRat (m4tuple (fun i j => cofactor4 M j i / det4 M) (m4tuple M p)).x =
        toRat p.x := by
      simp only [m4tuple, toRat_add, toRat_mul, toRat_div]
      field_simp
      linear_combination toRat p.x * h00 + toRat p.y * h01 + toRat p.z * h02 +
        toRat p.w * h03
    have e2 : toRat (m4tuple (fun i j => cofactor4 M j i / det4 M) (m4tuple M p)).y =
        toRat p.y := by
      simp only [m4tuple, toRat_add, toRat_mul, toRat_div]
      field_simp
      linear_combination toRat p.x * h10 + toRat p.y * h11 + toRat p.z * h12 +
        toRat p.w * h13
    have e3 : toRat (m4tuple (fun i j => cofactor4 M j i / det4 M) (m4tuple M p)).z =
        toRat p.z := by
      simp only [m4tuple, toRat_add, toRat_mul, toRat_div]
      field_simp
      linear_combination toRat p.x * h20 + toRat p.y * h21 + toRat p.z * h22 +
        toRat p.w * h23
    have e4 : toRat (m4tuple (fun i j => cofactor4 M j i / det4 M) (m4tuple M p)).w =
        toRat p.w := by
      simp only [m4tuple, toRat_add, toRat_mul, toRat_div]
      field_simp
      linear_combination toRat p.x * h30 + toRat p.y * h31 + toRat p.z * h32 +
        toRat p.w * h33
    unfold tupleApproxEq
    rw [equalF_of_toRat_eq _ _ e1, equalF_of_toRat_eq _ _ e2,
      equalF_of_toRat_eq _ _ e3, equalF_of_toRat_eq _ _ e4]
    rfl

/-- C9 witness: a concrete invertible matrix and point. -/
theorem inverse_roundtrip_witness :
    F64.beq (det4 (translation 5 (-3) 2)) 0 = false ∧
    ∃ N, inverse4 (translation 5 (-3) 2) = some N ∧
      tupleApproxEq (m4tuple N (m4tuple (translation 5 (-3) 2) (pt 1 2 3))) (pt 1 2 3) =
        true :=
  ⟨by decide, inverse_roundtrip (translation 5 (-3) 2) (pt 1 2 3) (by decide)⟩

/-- C10: in a world whose light list is empty, `shade_hit` panics on every
input (`cs.next().unwrap()` on the empty per-light iterator), `is_shadowed`
panics on every input (`lights[0]` out of bounds), and consequently
`color_at` panics for every ray whose intersection list has a hit. -/
theorem lightless_world_panics (w : World) (h : w.lights = []) :
    (∀ c rem, shadeHit w c rem = none) ∧
    (∀ p, isShadowed w p = none) ∧
    (∀ rem r xs i, worldIntersect w r = some xs → hitI xs = some i →
      colorAt w rem r = none) := by
  have hsh : ∀ (recur : Ray → Option Color) c rem2, shadeHitAux w recur c rem2 = none := by
    intro recur c rem2
    unfold shadeHitAux
    rw [h]
    rfl
  refine ⟨fun c rem => hsh _ c rem, ?_, ?_⟩
  · intro p
    unfold isShadowed
    rw [h]
  · intro rem r xs i h1 h2
    have haux : ∀ (cb : Ray → Option Color) n, colorAtAux w cb n r = none := by
      intro cb n
      cases hp : prepareComputations i r xs with
      | none => simp [colorAtAux, h1, h2, hp]
      | some comps => simp [colorAtAux, h1, h2, hp, hsh]
    cases rem with
    | zero => exact haux _ _
    | succ n => exact haux _ _

/-- A world with one sphere and no lights, and a ray that hits it. -/
def lightlessWorld : World := ⟨[unitSphere], []⟩

/-- C10 witness: the concrete lightless world panics in `shade_hit`,
`is_shadowed`, and `color_at` on a hitting ray. -/
theorem lightless_world_panics_witness :
    shadeHit lightlessWorld mirrorComps 1 = none ∧
    isShadowed lightlessWorld (pt 0 0 0) = none ∧
    colorAt lightlessWorld 4 ⟨pt 0 0 (-5), vec 0 0 1⟩ = none := by
  obtain ⟨h1, h2, h3⟩ := lightless_world_panics lightlessWorld rfl
  exact ⟨h1 mirrorComps 1, h2 (pt 0 0 0),
    h3 4 ⟨pt 0 0 (-5), vec 0 0 1⟩ _ _ rfl rfl⟩

/-- The C7 failing ray: origin `(-1,-1,-1)` on the cube's corner, direction
`(2⁻²⁰, 2⁻²⁰, 2⁻²⁰)` — every component is nonzero but below `EPSILON`, and
every slab numerator `-1 - origin` is exactly `0`, so `0 * ∞ = NaN` on all
three axes. -/
def nanRay : RayF :=
  ⟨.fin (-1), .fin (-1), .fin (-1),
   .fin (mkF 1 1048576), .fin (mkF 1 1048576), .fin (mkF 1 1048576)⟩

/-- C7: the cube slab test produces a NaN `t` value on `nanRay` (the list is
`[NaN, +∞]`, not "no intersection"), and `World::intersect` then panics in
the `partial_cmp(..).unwrap()` sort instead of returning a NaN-free list. -/
theorem cube_slab_nan_escapes_and_sort_panics :
    (cubeLocalIntersectF nanRay).any FV.isNan = true ∧
    cubeLocalIntersectF nanRay = [FV.nan, FV.inf] ∧
    worldIntersectCubeF nanRay = none := by
  refine ⟨by decide, by decide, by decide⟩
